import Mathlib

/-!
Verification of the diet_change_program repository.

The repository has two Python source files:
* `app.py` — a Streamlit app: per-month CSV stores (`base_menu_YYYY-MM.csv`,
  `changes_YYYY-MM.csv`), an override-merge engine and a message renderer;
* `make_message.py` — a single-file variant that loads `changes.csv` and
  emits a text message and a PDF.

This file shallowly embeds the data model and the pure logic of those
scripts: CSV tables become lists of rows, pandas DataFrame columns become
`Option String` cells (`none` = NaN / absent), `pd.to_datetime` is embedded
as `parseTimestamp` on the canonical textual forms the program produces,
and `sort_values` / `list.sort` are embedded as a stable sort on the sort key.
-/

/-- The character for the decimal digit `n` (`n < 10`), i.e. `Char.ofNat (48 + n)`. -/
def digitChar (n : Nat) : Char := Char.ofNat (48 + n)

/-- Python `f"{n:02d}"` for `n ≤ 99` (all uses in the source are months/days ≤ 31). -/
def pad2 (n : Nat) : String := ⟨[digitChar (n / 10 % 10), digitChar (n % 10)]⟩

/-- Python `f"{n:04d}"` for `n ≤ 9999` (all uses in the source are years 2010–2040). -/
def pad4 (n : Nat) : String :=
  ⟨[digitChar (n / 1000 % 10), digitChar (n / 100 % 10), digitChar (n / 10 % 10),
    digitChar (n % 10)]⟩

/-- The canonical ISO date string `YYYY-MM-DD`, as produced by the f-string in
`month_date_list` (app.py line 60) and by `strftime("%Y-%m-%d")`. -/
def dateStrOf (y m d : Nat) : String := pad4 y ++ "-" ++ pad2 m ++ "-" ++ pad2 d

/-- Gregorian leap-year rule, as used by Python's `calendar` module. -/
def isLeapYear (y : Nat) : Bool := (y % 4 == 0 && y % 100 != 0) || (y % 400 == 0)

/-- `calendar.monthrange(year, month)[1]`: the number of days of the month
(app.py line 59). -/
def daysInMonth (y m : Nat) : Nat :=
  if m = 2 then (if isLeapYear y then 29 else 28)
  else if m = 4 ∨ m = 6 ∨ m = 9 ∨ m = 11 then 30 else 31

/-- app.py `month_date_list` (lines 58–60): the ordered list of the month's
canonical date strings, day 1 up to the last day. -/
def month_date_list (year month : Nat) : List String :=
  (List.range (daysInMonth year month)).map fun i => dateStrOf year month (i + 1)

/-- Python `str.strip()`: remove leading and trailing whitespace. -/
def strip (s : String) : String :=
  ⟨((s.data.dropWhile Char.isWhitespace).reverse.dropWhile Char.isWhitespace).reverse⟩

/-- Weak lexicographic order on code-point sequences: the order Python uses to
compare strings. -/
def charsLe : List Char → List Char → Bool
  | [], _ => true
  | _ :: _, [] => false
  | a :: as, b :: bs =>
    if a.toNat < b.toNat then true else if b.toNat < a.toNat then false else charsLe as bs

/-- Strict lexicographic order on code-point sequences. -/
def charsLt : List Char → List Char → Bool
  | [], [] => false
  | [], _ :: _ => true
  | _ :: _, [] => false
  | a :: as, b :: bs =>
    if a.toNat < b.toNat then true else if b.toNat < a.toNat then false else charsLt as bs

/-- Python `s1 <= s2` on strings (code-point lexicographic order). -/
def strLe (a b : String) : Bool := charsLe a.data b.data

/-- Python `s1 < s2` on strings (code-point lexicographic order). -/
def strLt (a b : String) : Bool := charsLt a.data b.data

/-- A pandas `Timestamp` at minute resolution: the result of `pd.to_datetime`
on the date texts handled by this program.  `minutes` is the time of day in
minutes past midnight (0 for plain dates). -/
structure Timestamp where
  year : Nat
  month : Nat
  day : Nat
  minutes : Nat
deriving DecidableEq

/-- Chronological (lexicographic) order on `Timestamp`, the order `sort_values`
uses on a datetime column. -/
def tsLe (a b : Timestamp) : Bool :=
  decide (a.year < b.year) ||
    (decide (a.year = b.year) &&
      (decide (a.month < b.month) ||
        (decide (a.month = b.month) &&
          (decide (a.day < b.day) ||
            (decide (a.day = b.day) && decide (a.minutes ≤ b.minutes))))))

/-- `strftime("%Y-%m-%d")` on a `Timestamp` (app.py lines 80, 94). -/
def fmtDate (t : Timestamp) : String := dateStrOf t.year t.month t.day

/-- The numeric value of a digit character. -/
def digitVal (c : Char) : Nat := c.toNat - 48

/-- The characters of a date text, parsed as `parseTimestamp` specifies. -/
def parseChars : List Char → Option Timestamp
  | [y1, y2, y3, y4, c1, m1, m2, c2, d1, d2] =>
    if ([y1, y2, y3, y4, m1, m2, d1, d2].all Char.isDigit && (c1 == '-') && (c2 == '-')) then
      let y := ((digitVal y1 * 10 + digitVal y2) * 10 + digitVal y3) * 10 + digitVal y4
      let m := digitVal m1 * 10 + digitVal m2
      let d := digitVal d1 * 10 + digitVal d2
      if 1 ≤ m ∧ m ≤ 12 ∧ 1 ≤ d ∧ d ≤ daysInMonth y m then
        some ⟨y, m, d, 0⟩
      else none
    else none
  | [y1, y2, y3, y4, c1, m1, m2, c2, d1, d2, sp, h1, h2, co, n1, n2] =>
    if ([y1, y2, y3, y4, m1, m2, d1, d2, h1, h2, n1, n2].all Char.isDigit &&
        (c1 == '-') && (c2 == '-') && (sp == ' ') && (co == ':')) then
      let y := ((digitVal y1 * 10 + digitVal y2) * 10 + digitVal y3) * 10 + digitVal y4
      let m := digitVal m1 * 10 + digitVal m2
      let d := digitVal d1 * 10 + digitVal d2
      let hh := digitVal h1 * 10 + digitVal h2
      let nn := digitVal n1 * 10 + digitVal n2
      if 1 ≤ m ∧ m ≤ 12 ∧ 1 ≤ d ∧ d ≤ daysInMonth y m ∧ hh < 24 ∧ nn < 60 then
        some ⟨y, m, d, hh * 60 + nn⟩
      else none
    else none
  | _ => none

/-- Embedding of `pd.to_datetime(_, errors="coerce")` on the textual forms this
program produces and reads back: canonical `YYYY-MM-DD` dates, optionally with
an `HH:MM` time of day.  Anything else (including the empty string and NaN
cells) yields `none`, i.e. `NaT`.  Month/day/hour/minute validity is checked,
as pandas does. -/
def parseTimestamp (s : String) : Option Timestamp := parseChars s.data

/-- pandas `drop_duplicates(subset=[key], keep="last")`: keep, in their original
relative order, exactly those rows whose key does not occur again later. -/
def dropDupLast {α β : Type} [DecidableEq β] (key : α → β) : List α → List α
  | [] => []
  | x :: xs =>
    if xs.any (fun y => decide (key y = key x)) then dropDupLast key xs
    else x :: dropDupLast key xs

/-- A loaded CSV file as pandas sees it: whether the `date` column and the menu
column (`base_menu` resp. `new_menu`) are present in the schema, and the rows'
cells for those two columns (`none` = NaN / missing value). -/
structure RawTable where
  hasDate : Bool
  hasMenu : Bool
  rows : List (Option String × Option String)

/-- The error message raised by `read_base_df` (app.py line 77). -/
def baseSchemaErrMsg : String := "기본식단 파일은 반드시 'date, base_menu' 컬럼이 있어야 합니다."

/-- The rows of app.py `read_base_df` after parsing and before the
de-duplication: dates coerce-parsed (unparsable rows dropped) and normalized
to `date_str`, missing menu cells filled with `""`. -/
def baseParsedRows (t : RawTable) : List (String × String) :=
  t.rows.filterMap fun r =>
    match parseTimestamp (r.1.getD "") with
    | none => none
    | some ts => some (fmtDate ts, r.2.getD "")

/-- app.py `read_base_df` (lines 74–82): require both columns, coerce-parse the
date (dropping unparsable rows), normalize to `date_str`, fill missing menu
cells with `""`, and de-duplicate on `date_str` keeping the last row. -/
def read_base_df (t : RawTable) : Except String (List (String × String)) :=
  if t.hasDate && t.hasMenu then .ok (dropDupLast Prod.fst (baseParsedRows t))
  else .error baseSchemaErrMsg

/-- The intermediate rows of app.py `read_changes_df` just before the sort:
a missing `date`/`new_menu` column is replaced by empty strings
(lines 88–91), dates are coerce-parsed (unparsable rows dropped), and each
surviving row carries its parsed timestamp, its `date_str` and its
`new_menu` text. -/
def changesParsedRows (t : RawTable) : List (Timestamp × String × String) :=
  t.rows.filterMap fun r =>
    let dateCell : Option String := if t.hasDate then r.1 else some ""
    let menuCell : Option String := if t.hasMenu then r.2 else some ""
    match parseTimestamp (dateCell.getD "") with
    | none => none
    | some ts => some (ts, fmtDate ts, menuCell.getD "")

/-- app.py `read_changes_df` (lines 84–97): parse and normalize, sort by the
parsed datetime (`sort_values("date")`, embedded as a stable sort),
de-duplicate on `date_str` keeping the last row of the sorted order, and
project to `(date_str, new_menu)`. -/
def read_changes_df (t : RawTable) : List (String × String) :=
  (dropDupLast (fun x => x.2.1)
      ((changesParsedRows t).insertionSort fun a b => tsLe a.1 b.1 = true)).map
    fun x => (x.2.1, x.2.2)

/-- The rows of `tbl` whose date key equals `d`, in file order (the matches a
pandas left merge on `date_str` finds for one left row). -/
def lookupMatches (tbl : List (String × String)) (d : String) : List (String × String) :=
  tbl.filter fun r => decide (r.1 = d)

/-- `frame.merge(base_df, on="date_str", how="left")` (app.py line 102): each
frame date is paired with every matching base row, or with `none` (NaN) if no
base row matches. -/
def leftJoin1 (frame : List String) (tbl : List (String × String)) :
    List (String × Option String) :=
  frame.flatMap fun d =>
    let ms := lookupMatches tbl d
    if ms.isEmpty then [(d, none)] else ms.map fun r => (d, some r.2)

/-- `.merge(changes_df, on="date_str", how="left")` (app.py line 102), applied
to the result of the first merge. -/
def leftJoin2 (m1 : List (String × Option String)) (tbl : List (String × String)) :
    List (String × Option String × Option String) :=
  m1.flatMap fun x =>
    let ms := lookupMatches tbl x.1
    if ms.isEmpty then [(x.1, x.2, none)] else ms.map fun r => (x.1, x.2, some r.2)

/-- One row of the merged month table produced by app.py `merge_month`. -/
structure MergedRow where
  date_str : String
  base_menu : String
  new_menu : String
  final_menu : String
  is_changed : Bool
  mmdd : String
deriving DecidableEq

/-- `pd.to_datetime(date_str).dt.strftime("%m/%d")` (app.py line 107) on the
canonical date strings of the month frame.  (On an unparsable string pandas
would raise; that case is unreachable from `merge_month`, whose `date_str`
values all come from `month_date_list`, and is embedded as `""`.) -/
def toMMDD (s : String) : String :=
  match parseTimestamp s with
  | some ts => pad2 ts.month ++ "/" ++ pad2 ts.day
  | none => ""

/-- app.py `merge_month` (lines 99–108): left-join the month's date frame with
the base table and the changes table, fill missing menus with `""`, and derive
`final_menu`, `is_changed` and `mmdd`. -/
def merge_month (base_df changes_df : List (String × String)) (year month : Nat) :
    List MergedRow :=
  (leftJoin2 (leftJoin1 (month_date_list year month) base_df) changes_df).map fun x =>
    let base := x.2.1.getD ""
    let newv := x.2.2.getD ""
    { date_str := x.1
      base_menu := base
      new_menu := newv
      final_menu := if strip newv ≠ "" then newv else base
      is_changed := decide (strip newv ≠ "")
      mmdd := toMMDD x.1 }

/-- app.py line 10. -/
def VENDOR_NAME : String := "맘스락"

/-- app.py line 11 (the vendor phone numbers, deliberately kept out of the
message). -/
def VENDOR_TEL : String := "031-238-5502, 010-9280-9292"

/-- app.py line 13. -/
def SENDER_ORG : String := "동약 협회"

/-- app.py line 14. -/
def SENDER_NAME : String := "신형철"

/-- app.py line 15. -/
def SENDER_TEL : String := "010-7101-5871"

/-- Python `"\n".join(lines)`. -/
def joinLines : List String → String
  | [] => ""
  | [l] => l
  | l :: ls => l ++ "\n" ++ joinLines ls

/-- The per-change line of app.py `build_message` (lines 124–126): blank
(after stripping) menu texts are rendered as the literal `(미기재)`. -/
def changeLine (r : MergedRow) : String :=
  let base := if strip r.base_menu ≠ "" then strip r.base_menu else "(미기재)"
  let newv := if strip r.new_menu ≠ "" then strip r.new_menu else "(미기재)"
  r.mmdd ++ ": (기본)" ++ base ++ " → (변경)" ++ newv

/-- app.py `build_message` (lines 116–130): title, blank line, the per-change
lines (or the literal `변경 없음` when there are none), blank line, sender
signature, joined by newlines. -/
def build_message (month : Nat) (changed_rows : List MergedRow) : String :=
  let title := VENDOR_NAME ++ " ( " ++ toString month ++ " )월 변경 식단 입니다"
  let lines₁ := [title, ""]
  let lines₂ :=
    if changed_rows.isEmpty then lines₁ ++ ["변경 없음"]
    else lines₁ ++ changed_rows.map changeLine
  joinLines (lines₂ ++ [""] ++ [SENDER_ORG ++ " / " ++ SENDER_NAME ++ " / " ++ SENDER_TEL])

/-- The text encodings the two CSV readers try. -/
inductive Enc
  | utf8
  | utf8sig
  | cp949
deriving DecidableEq

/-- app.py `safe_read_csv` (lines 38–44), parameterized by the external
decoding function (`none` = `UnicodeDecodeError`): try utf-8, utf-8-sig and
cp949 in order; if all three fail, fall back to `pd.read_csv(path)` with its
default encoding — which is utf-8 again, and whose failure is not caught
(embedded as the overall result `none`, i.e. an uncaught exception). -/
def safe_read_csv (decode : Enc → List Nat → Option String) (raw : List Nat) :
    Option String :=
  match decode .utf8 raw with
  | some s => some s
  | none =>
    match decode .utf8sig raw with
    | some s => some s
    | none =>
      match decode .cp949 raw with
      | some s => some s
      | none => decode .utf8 raw

/-- make_message.py `read_text_csv` (lines 13–22), parameterized by the
external decoding function and by the lossy `decode("cp949", errors="replace")`
fallback (which always yields a string): try utf-8-sig, utf-8 and cp949 in
order; if all fail, return the lossy fallback decode. -/
def read_text_csv (decode : Enc → List Nat → Option String)
    (decodeCp949Replace : List Nat → String) (raw : List Nat) : String :=
  match decode .utf8sig raw with
  | some s => s
  | none =>
    match decode .utf8 raw with
    | some s => s
    | none =>
      match decode .cp949 raw with
      | some s => s
      | none => decodeCp949Replace raw

/-- make_message.py `load_changes` (lines 32–42): keep rows whose stripped
`date` and stripped `new_menu` are both non-empty (a missing cell counting as
`""`, per `row.get(...) or ""`), storing the stripped values, then sort by the
date string (Python's stable `list.sort`). -/
def load_changes (rows : List (Option String × Option String)) : List (String × String) :=
  (rows.filterMap fun r =>
      let date := strip (r.1.getD "")
      let new_menu := strip (r.2.getD "")
      if date ≠ "" ∧ new_menu ≠ "" then some (date, new_menu) else none).insertionSort
    fun a b => strLe a.1 b.1 = true

/-- The in-memory upsert of app.py `do_save` (lines 243–247): drop every row
with the selected date, then append the new `(date, new_menu)` row. -/
def upsert (changes : List (String × String)) (selected_date new_menu : String) :
    List (String × String) :=
  (changes.filter fun r => decide (r.1 ≠ selected_date)) ++ [(selected_date, new_menu)]

/-- The persisted content written by app.py `do_save` / `do_clear`
(lines 249–250, 257–258): the `(date, new_menu)` projection sorted by the date
string (`sort_values("date")`, embedded as a stable sort). -/
def persistChanges (changes : List (String × String)) : List (String × String) :=
  changes.insertionSort fun a b => strLe a.1 b.1 = true

/-- The cell values `pd.read_csv` treats as NaN by default: its documented
default `na_values` list, the empty field among them. -/
def PANDAS_NA_VALUES : List String :=
  ["", "#N/A", "#N/A N/A", "#NA", "-1.#IND", "-1.#QNAN", "-NaN", "-nan",
   "1.#IND", "1.#QNAN", "<NA>", "N/A", "NA", "NULL", "NaN", "None", "n/a",
   "nan", "null"]

/-- Reading back a persisted CSV cell with `pd.read_csv`: a default NA marker
(including the empty field) comes back as NaN, other text as itself.
Column-level dtype inference — which rewrites every cell of a column whose
values all look numeric or boolean, e.g. a menu `01` reloading as `1` — is
outside this per-cell model; the round-trip theorem keeps to the unrewritten
domain by excluding values matched by `couldCoerce`.  The canonical date
strings are never NA markers and never numeric-looking (two dashes), so the
date cell passes through unchanged. -/
def csvCell (s : String) : Option String :=
  if s ∈ PANDAS_NA_VALUES then none else some s

/-- Texts that `pd.read_csv`'s column type inference could rewrite on reload
if a whole column were made of them: numeric-looking values (only sign, digit,
decimal-point and exponent characters once surrounding whitespace is ignored,
e.g. `01`, `1e5`) and the default boolean words.  A conservative
over-approximation. -/
def couldCoerce (s : String) : Bool :=
  ((strip s).data.all fun c =>
    c.isDigit || c == '+' || c == '-' || c == '.' || c == 'e' || c == 'E') ||
  (["True", "TRUE", "true", "False", "FALSE", "false"].contains (strip s))

/-! ## Digit and date-string helpers -/

theorem digitVal_digitChar : ∀ k < 10, digitVal (digitChar k) = k := by decide

theorem isDigit_digitChar : ∀ k < 10, (digitChar k).isDigit = true := by decide

theorem digitChar_lt_iff : ∀ a < 10, ∀ b < 10, (digitChar a < digitChar b ↔ a < b) := by decide

theorem daysInMonth_le (y m : Nat) : daysInMonth y m ≤ 31 := by
  unfold daysInMonth
  split
  · split <;> omega
  · split <;> omega

theorem daysInMonth_pos (y m : Nat) : 1 ≤ daysInMonth y m := by
  unfold daysInMonth
  split
  · split <;> omega
  · split <;> omega

theorem dateStrOf_data (y m d : Nat) :
    (dateStrOf y m d).data =
      [digitChar (y / 1000 % 10), digitChar (y / 100 % 10), digitChar (y / 10 % 10),
       digitChar (y % 10), '-', digitChar (m / 10 % 10), digitChar (m % 10), '-',
       digitChar (d / 10 % 10), digitChar (d % 10)] := rfl

/-- Parsing inverts formatting on in-range canonical dates. -/
theorem parseTimestamp_dateStrOf {y m d : Nat} (hy : y ≤ 9999) (hm1 : 1 ≤ m) (hm2 : m ≤ 12)
    (hd1 : 1 ≤ d) (hd2 : d ≤ daysInMonth y m) :
    parseTimestamp (dateStrOf y m d) = some ⟨y, m, d, 0⟩ := by
  have h10 : ∀ n : Nat, n % 10 < 10 := fun n => Nat.mod_lt _ (by omega)
  have hdig : ∀ n : Nat, (digitChar (n % 10)).isDigit = true := fun n =>
    isDigit_digitChar _ (h10 n)
  have hval : ∀ n : Nat, digitVal (digitChar (n % 10)) = n % 10 := fun n =>
    digitVal_digitChar _ (h10 n)
  have hd31 : d ≤ 31 := le_trans hd2 (daysInMonth_le y m)
  rw [parseTimestamp, dateStrOf_data, parseChars]
  simp only [List.all_cons, List.all_nil, hdig, beq_self_eq_true, Bool.and_self, Bool.and_true,
    Bool.true_and, eq_self_iff_true, if_true, hval]
  have ey : ((y / 1000 % 10 * 10 + y / 100 % 10) * 10 + y / 10 % 10) * 10 + y % 10 = y := by
    omega
  have em : m / 10 % 10 * 10 + m % 10 = m := by omega
  have ed : d / 10 % 10 * 10 + d % 10 = d := by omega
  rw [ey, em, ed, if_pos ⟨hm1, hm2, hd1, hd2⟩]

theorem fmtDate_mk (y m d t : Nat) : fmtDate ⟨y, m, d, t⟩ = dateStrOf y m d := rfl

/-! ## Claim C2 -/

/-- **C2**: every row produced by `merge_month` has `is_changed = true` exactly
when its `new_menu` stripped of whitespace is non-empty; when `is_changed` is
true, `final_menu` equals `new_menu`, and when it is false, `final_menu`
equals `base_menu`. -/
theorem merge_month_changed_flag (base_df changes_df : List (String × String))
    (year month : Nat) (r : MergedRow)
    (hr : r ∈ merge_month base_df changes_df year month) :
    (r.is_changed = true ↔ (strip r.new_menu) ≠ "") ∧
    (r.is_changed = true → r.final_menu = r.new_menu) ∧
    (r.is_changed = false → r.final_menu = r.base_menu) := by
  obtain ⟨x, -, rfl⟩ := List.mem_map.mp hr
  refine ⟨by simp, ?_, ?_⟩
  · intro h
    simp only [decide_eq_true_eq] at h
    simp [h]
  · intro h
    simp only [decide_eq_false_iff_not, not_not] at h
    simp [h]

/-- Witness for C2 at a concrete month, base table and override table. -/
theorem merge_month_changed_flag_witness :
    ((MergedRow.mk "2025-06-01" "" "x" "x" true "06/01").is_changed = true ↔
        (strip (MergedRow.mk "2025-06-01" "" "x" "x" true "06/01").new_menu) ≠ "") ∧
    ((MergedRow.mk "2025-06-01" "" "x" "x" true "06/01").is_changed = true →
        (MergedRow.mk "2025-06-01" "" "x" "x" true "06/01").final_menu =
          (MergedRow.mk "2025-06-01" "" "x" "x" true "06/01").new_menu) ∧
    ((MergedRow.mk "2025-06-01" "" "x" "x" true "06/01").is_changed = false →
        (MergedRow.mk "2025-06-01" "" "x" "x" true "06/01").final_menu =
          (MergedRow.mk "2025-06-01" "" "x" "x" true "06/01").base_menu) :=
  merge_month_changed_flag [] [("2025-06-01", "x")] 2025 6 _ (by decide)

/-! ## Claim C4 -/

/-- **C4**: the `do_save` upsert (drop every row with the selected date, then
append the new `(date, new_menu)` row) is idempotent — doing it twice yields
the same collection as doing it once — and the resulting collection holds
exactly one entry for that date; consequently the persisted (sorted) file
content is also the same. -/
theorem upsert_idem (changes : List (String × String)) (d menu : String) :
    upsert (upsert changes d menu) d menu = upsert changes d menu ∧
    (upsert changes d menu).countP (fun r => decide (r.1 = d)) = 1 ∧
    persistChanges (upsert (upsert changes d menu) d menu) =
      persistChanges (upsert changes d menu) := by
  have h1 : upsert (upsert changes d menu) d menu = upsert changes d menu := by
    simp [upsert, List.filter_append, List.filter_filter]
  refine ⟨h1, ?_, by rw [h1]⟩
  simp only [upsert, List.countP_append]
  have h0 : (changes.filter fun r => decide (r.1 ≠ d)).countP (fun r => decide (r.1 = d)) = 0 := by
    rw [List.countP_eq_zero]
    intro a ha
    have := (List.mem_filter.mp ha).2
    simp only [decide_eq_true_eq] at this ⊢
    exact this
  simp [h0]

/-! ## Claim C1 -/

theorem digitChar_toNat : ∀ k < 10, (digitChar k).toNat = 48 + k := by decide

theorem charsLt_append_left (xs l1 l2 : List Char) :
    charsLt (xs ++ l1) (xs ++ l2) = charsLt l1 l2 := by
  induction xs with
  | nil => rfl
  | cons a as ih => simp [charsLt, ih]

theorem charsLt_pad2 {d d' : Nat} (h : d < d') (h' : d' ≤ 99) :
    charsLt (pad2 d).data (pad2 d').data = true := by
  have t1 : (digitChar (d / 10 % 10)).toNat = 48 + d / 10 % 10 :=
    digitChar_toNat _ (Nat.mod_lt _ (by omega))
  have t2 : (digitChar (d' / 10 % 10)).toNat = 48 + d' / 10 % 10 :=
    digitChar_toNat _ (Nat.mod_lt _ (by omega))
  have t3 : (digitChar (d % 10)).toNat = 48 + d % 10 :=
    digitChar_toNat _ (Nat.mod_lt _ (by omega))
  have t4 : (digitChar (d' % 10)).toNat = 48 + d' % 10 :=
    digitChar_toNat _ (Nat.mod_lt _ (by omega))
  show charsLt [digitChar (d / 10 % 10), digitChar (d % 10)]
      [digitChar (d' / 10 % 10), digitChar (d' % 10)] = true
  rcases Nat.lt_trichotomy (d / 10 % 10) (d' / 10 % 10) with hlt | heq | hgt
  · simp only [charsLt, t1, t2]
    rw [if_pos (by omega)]
  · simp only [charsLt, t1, t2, t3, t4, heq]
    rw [if_neg (by omega), if_neg (by omega), if_pos (by omega)]
  · omega

theorem strLt_dateStrOf (y m : Nat) {d d' : Nat} (h : d < d') (h' : d' ≤ 99) :
    strLt (dateStrOf y m d) (dateStrOf y m d') = true := by
  have e1 : (dateStrOf y m d).data = (pad4 y ++ "-" ++ pad2 m ++ "-").data ++ (pad2 d).data := by
    simp [dateStrOf]
  have e2 : (dateStrOf y m d').data =
      (pad4 y ++ "-" ++ pad2 m ++ "-").data ++ (pad2 d').data := by
    simp [dateStrOf]
  rw [strLt, e1, e2, charsLt_append_left]
  exact charsLt_pad2 h h'

theorem month_date_list_sorted (y m : Nat) :
    (month_date_list y m).Pairwise fun a b => strLt a b = true := by
  rw [month_date_list, List.pairwise_map]
  refine (List.pairwise_lt_range (daysInMonth y m)).imp_of_mem ?_
  intro a b ha hb hab
  have hb' : b < daysInMonth y m := List.mem_range.mp hb
  have h31 := daysInMonth_le y m
  exact strLt_dateStrOf y m (by omega) (by omega)

theorem month_date_list_length (y m : Nat) : (month_date_list y m).length = daysInMonth y m := by
  simp [month_date_list]

theorem lookupMatches_length_le (tbl : List (String × String))
    (h : (tbl.map Prod.fst).Nodup) (d : String) : (lookupMatches tbl d).length ≤ 1 := by
  induction tbl with
  | nil => simp [lookupMatches]
  | cons x xs ih =>
    simp only [List.map_cons, List.nodup_cons] at h
    by_cases hx : x.1 = d
    · have hempty : xs.filter (fun r => decide (r.1 = d)) = [] := by
        rw [List.filter_eq_nil_iff]
        intro a ha
        simp only [decide_eq_true_eq]
        intro had
        exact h.1 (by rw [hx, ← had]; exact List.mem_map_of_mem Prod.fst ha)
      simp [lookupMatches, List.filter_cons, hx, hempty]
    · simpa [lookupMatches, List.filter_cons, hx] using ih h.2

theorem group1_map_fst (tbl : List (String × String)) (h : (tbl.map Prod.fst).Nodup)
    (d : String) :
    ((if (lookupMatches tbl d).isEmpty then [(d, (none : Option String))]
      else (lookupMatches tbl d).map fun r => (d, some r.2)).map Prod.fst) = [d] := by
  have hle := lookupMatches_length_le tbl h d
  rcases hms : lookupMatches tbl d with - | ⟨a, - | ⟨b, rest⟩⟩
  · simp
  · simp
  · rw [hms] at hle
    simp at hle

theorem leftJoin1_map_fst (frame : List String) (tbl : List (String × String))
    (h : (tbl.map Prod.fst).Nodup) : (leftJoin1 frame tbl).map Prod.fst = frame := by
  induction frame with
  | nil => rfl
  | cons d ds ih =>
    simp only [leftJoin1] at ih ⊢
    rw [List.flatMap_cons, List.map_append, ih]
    rw [group1_map_fst tbl h d]
    rfl

theorem group2_map_fst (tbl : List (String × String)) (h : (tbl.map Prod.fst).Nodup)
    (x : String × Option String) :
    ((if (lookupMatches tbl x.1).isEmpty then [(x.1, x.2, (none : Option String))]
      else (lookupMatches tbl x.1).map fun r => (x.1, x.2, some r.2)).map Prod.fst) = [x.1] := by
  have hle := lookupMatches_length_le tbl h x.1
  rcases hms : lookupMatches tbl x.1 with - | ⟨a, - | ⟨b, rest⟩⟩
  · simp
  · simp
  · rw [hms] at hle
    simp at hle

theorem leftJoin2_map_fst (m1 : List (String × Option String)) (tbl : List (String × String))
    (h : (tbl.map Prod.fst).Nodup) : (leftJoin2 m1 tbl).map Prod.fst = m1.map Prod.fst := by
  induction m1 with
  | nil => rfl
  | cons x xs ih =>
    simp only [leftJoin2] at ih ⊢
    rw [List.flatMap_cons, List.map_append, ih]
    rw [group2_map_fst tbl h x]
    rfl

theorem merge_month_map_date (base_df changes_df : List (String × String)) (year month : Nat)
    (hb : (base_df.map Prod.fst).Nodup) (hc : (changes_df.map Prod.fst).Nodup) :
    (merge_month base_df changes_df year month).map MergedRow.date_str =
      month_date_list year month := by
  unfold merge_month
  rw [List.map_map]
  show (leftJoin2 (leftJoin1 (month_date_list year month) base_df) changes_df).map
      Prod.fst = month_date_list year month
  rw [leftJoin2_map_fst _ _ hc, leftJoin1_map_fst _ _ hb]

/-- **C1** counterexample: with a base table holding two rows for the same
date — as the claim's "any base table" allows — `merge_month` emits 32 rows
for 2023-01 instead of one row per calendar day (31): the pandas left merge
duplicates the frame row for every matching base row. -/
theorem merge_month_dup_base_cex :
    (merge_month [("2023-01-01", "a"), ("2023-01-01", "b")] [] 2023 1).length = 32 ∧
    daysInMonth 2023 1 = 31 := by decide

/-- **C1** (amended: the base and override tables must have at most one row
per date, as the outputs of `read_base_df` / `read_changes_df` always do):
for every year 2010–2040 and month 1–12, `merge_month` returns exactly one
row per calendar day of the month — its dates are exactly `month_date_list`,
its length is the number of days of the month (29 for 2024-02, 28 for
2023-02, by `daysInMonth`) — in strictly ascending date order, including days
with neither base nor override data. -/
theorem merge_month_one_row_per_day (base_df changes_df : List (String × String))
    (year month : Nat) (hy : 2010 ≤ year ∧ year ≤ 2040) (hm : 1 ≤ month ∧ month ≤ 12)
    (hb : (base_df.map Prod.fst).Nodup) (hc : (changes_df.map Prod.fst).Nodup) :
    (merge_month base_df changes_df year month).map MergedRow.date_str =
      month_date_list year month ∧
    (merge_month base_df changes_df year month).length = daysInMonth year month ∧
    ((merge_month base_df changes_df year month).map MergedRow.date_str).Pairwise
      (fun a b => strLt a b = true) := by
  have hmap := merge_month_map_date base_df changes_df year month hb hc
  refine ⟨hmap, ?_, hmap ▸ month_date_list_sorted year month⟩
  have hlen := congrArg List.length hmap
  rw [List.length_map, month_date_list_length] at hlen
  exact hlen

/-- Witness for C1 at the leap month 2024-02 with concrete tables. -/
theorem merge_month_one_row_per_day_witness :
    (merge_month [("2024-02-01", "밥")] [("2024-02-03", "국")] 2024 2).map
        MergedRow.date_str = month_date_list 2024 2 ∧
    (merge_month [("2024-02-01", "밥")] [("2024-02-03", "국")] 2024 2).length =
      daysInMonth 2024 2 ∧
    ((merge_month [("2024-02-01", "밥")] [("2024-02-03", "국")] 2024 2).map
        MergedRow.date_str).Pairwise (fun a b => strLt a b = true) :=
  merge_month_one_row_per_day [("2024-02-01", "밥")] [("2024-02-03", "국")] 2024 2
    (by omega) (by omega) (by decide) (by decide)

/-! ## Claim C3 -/

theorem dropDupLast_sublist {α β : Type} [DecidableEq β] (key : α → β) (l : List α) :
    List.Sublist (dropDupLast key l) l := by
  induction l with
  | nil => simp [dropDupLast]
  | cons x xs ih =>
    rw [dropDupLast]
    split
    · exact ih.cons x
    · exact ih.cons₂ x

theorem dropDupLast_map_key_nodup {α β : Type} [DecidableEq β] (key : α → β) (l : List α) :
    ((dropDupLast key l).map key).Nodup := by
  induction l with
  | nil => simp [dropDupLast]
  | cons x xs ih =>
    rw [dropDupLast]
    split
    · exact ih
    · rename_i hany
      simp only [List.map_cons, List.nodup_cons]
      refine ⟨fun hmem => ?_, ih⟩
      obtain ⟨y, hy, hky⟩ := List.mem_map.mp hmem
      have hyxs : y ∈ xs := (dropDupLast_sublist key xs).subset hy
      exact hany (List.any_eq_true.mpr ⟨y, hyxs, by simp [hky]⟩)

theorem dropDupLast_filter {α β : Type} [DecidableEq β] (key : α → β) (l : List α) (k : β) :
    (dropDupLast key l).filter (fun x => decide (key x = k)) =
      ((l.filter fun x => decide (key x = k)).getLast?).toList := by
  induction l with
  | nil => simp [dropDupLast]
  | cons x xs ih =>
    rw [dropDupLast]
    split
    · rename_i hany
      rw [ih, List.filter_cons]
      by_cases hk : key x = k
      · rw [if_pos (by simp [hk])]
        have hne : xs.filter (fun z => decide (key z = k)) ≠ [] := by
          obtain ⟨y, hy, hky⟩ := List.any_eq_true.mp hany
          simp only [decide_eq_true_eq] at hky
          intro hnil
          have hmem : y ∈ xs.filter (fun z => decide (key z = k)) :=
            List.mem_filter.mpr ⟨hy, by simp [hky, hk]⟩
          rw [hnil] at hmem
          cases hmem
        obtain ⟨c, t', ht⟩ := List.exists_cons_of_ne_nil hne
        rw [ht, List.getLast?_cons_cons]
      · rw [if_neg (by simp [hk])]
    · rename_i hany
      rw [List.filter_cons, List.filter_cons]
      by_cases hk : key x = k
      · have hnil : xs.filter (fun z => decide (key z = k)) = [] := by
          rw [List.filter_eq_nil_iff]
          intro y hy
          simp only [decide_eq_true_eq]
          intro hky
          exact hany (List.any_eq_true.mpr ⟨y, hy, by simp [hky, hk]⟩)
        rw [if_pos (by simp [hk]), if_pos (by simp [hk]), ih, hnil]
        simp
      · rw [if_neg (by simp [hk]), if_neg (by simp [hk]), ih]

theorem tsLe_refl (a : Timestamp) : tsLe a a = true := by
  simp [tsLe]

theorem tsLe_trans (a b c : Timestamp) (hab : tsLe a b = true) (hbc : tsLe b c = true) :
    tsLe a c = true := by
  simp only [tsLe, Bool.or_eq_true, Bool.and_eq_true, decide_eq_true_eq] at hab hbc ⊢
  omega

theorem tsLe_total (a b : Timestamp) : tsLe a b = true ∨ tsLe b a = true := by
  simp only [tsLe, Bool.or_eq_true, Bool.and_eq_true, decide_eq_true_eq]
  omega

/-- In a list sorted by a reflexive `le`, the last element dominates every
member. -/
theorem getLast_maximal {α : Type} {le : α → α → Bool} (hrefl : ∀ a, le a a = true)
    {l : List α} (hl : l.Pairwise fun a b => le a b = true) {x z : α}
    (hx : x ∈ l) (hz : l.getLast? = some z) : le x z = true := by
  induction l with
  | nil => cases hx
  | cons a t ih =>
    rcases t with - | ⟨b, t'⟩
    · simp only [List.mem_singleton] at hx
      simp only [List.getLast?_singleton, Option.some.injEq] at hz
      rw [hx, ← hz]
      exact hrefl a
    · rw [List.getLast?_cons_cons] at hz
      rcases List.mem_cons.mp hx with rfl | hx'
      · have hz' : z ∈ b :: t' := List.mem_of_getLast?_eq_some hz
        exact (List.pairwise_cons.mp hl).1 z hz'
      · exact ih (List.pairwise_cons.mp hl).2 hx' hz

/-- **C3** counterexample: two change rows normalize to the same date
2023-01-01, the later one in file order carrying "b"; but `read_changes_df`
keeps the earlier file row "a", because `sort_values("date")` orders by the
full parsed timestamp (23:00 after 01:00) before
`drop_duplicates(keep="last")`. -/
theorem read_changes_df_keep_last_cex :
    read_changes_df ⟨true, true,
        [(some "2023-01-01 23:00", some "a"), (some "2023-01-01 01:00", some "b")]⟩ =
      [("2023-01-01", "a")] := by decide

/-- **C3** (amended): both loaders keep exactly one row per normalized date
(their output date keys are duplicate-free).  `read_base_df` keeps the last
occurrence in file order.  `read_changes_df` keeps a row whose parsed
timestamp is maximal among that date's rows — which is the last occurrence in
file order when duplicate dates carry equal timestamps (as date-only values
do) but need not be otherwise, since rows are sorted by the full timestamp
before the keep-last de-duplication. -/
theorem loaders_keep_one_per_date (t : RawTable)
    (h : (t.hasDate && t.hasMenu) = true) (d : String) :
    (∀ out, read_base_df t = .ok out →
      (out.map Prod.fst).Nodup ∧
      out.filter (fun r => decide (r.1 = d)) =
        ((baseParsedRows t).filter (fun r => decide (r.1 = d))).getLast?.toList) ∧
    ((read_changes_df t).map Prod.fst).Nodup ∧
    (∀ e ∈ read_changes_df t, e.1 = d →
      ∃ p ∈ changesParsedRows t, (p.2.1, p.2.2) = e ∧
        ∀ q ∈ changesParsedRows t, q.2.1 = d → tsLe q.1 p.1 = true) := by
  refine ⟨?_, ?_, ?_⟩
  · intro out hout
    rw [read_base_df, if_pos h] at hout
    cases hout
    exact ⟨dropDupLast_map_key_nodup _ _, dropDupLast_filter _ _ _⟩
  · rw [read_changes_df, List.map_map]
    exact dropDupLast_map_key_nodup _ _
  · intro e he hed
    rw [read_changes_df] at he
    obtain ⟨p, hp, hproj⟩ := List.mem_map.mp he
    have hkey : p.2.1 = d := by rw [← hed, ← hproj]
    have hsorted : (changesParsedRows t).insertionSort (fun a b => tsLe a.1 b.1 = true)
        |>.Pairwise (fun a b => tsLe a.1 b.1 = true) := by
      haveI : IsTrans (Timestamp × String × String) (fun a b => tsLe a.1 b.1 = true) :=
        ⟨fun a b c => tsLe_trans a.1 b.1 c.1⟩
      haveI : IsTotal (Timestamp × String × String) (fun a b => tsLe a.1 b.1 = true) :=
        ⟨fun a b => tsLe_total a.1 b.1⟩
      exact List.sorted_insertionSort _ _
    have hpmem : p ∈ (changesParsedRows t).insertionSort (fun a b => tsLe a.1 b.1 = true) :=
      (dropDupLast_sublist _ _).subset hp
    have hpfil : p ∈ ((changesParsedRows t).insertionSort
        (fun a b => tsLe a.1 b.1 = true)).filter (fun x => decide (x.2.1 = d)) :=
      List.mem_filter.mpr ⟨hpmem, by simp [hkey]⟩
    have hdedupfil := dropDupLast_filter (fun x : Timestamp × String × String => x.2.1)
      ((changesParsedRows t).insertionSort (fun a b => tsLe a.1 b.1 = true)) d
    have hplast : (((changesParsedRows t).insertionSort
        (fun a b => tsLe a.1 b.1 = true)).filter
          (fun x => decide (x.2.1 = d))).getLast? = some p := by
      have hpin : p ∈ (dropDupLast (fun x : Timestamp × String × String => x.2.1)
          ((changesParsedRows t).insertionSort (fun a b => tsLe a.1 b.1 = true))).filter
            (fun x => decide (x.2.1 = d)) :=
        List.mem_filter.mpr ⟨hp, by simp [hkey]⟩
      rw [hdedupfil] at hpin
      rcases hlast' : (((changesParsedRows t).insertionSort
          (fun a b => tsLe a.1 b.1 = true)).filter
            (fun x => decide (x.2.1 = d))).getLast? with - | z
      · rw [hlast'] at hpin
        cases hpin
      · rw [hlast'] at hpin
        simp only [Option.toList_some, List.mem_singleton] at hpin
        rw [hpin]
        exact hlast'
    refine ⟨p, List.mem_insertionSort _ |>.mp hpmem, by rw [hproj], ?_⟩
    intro q hq hqd
    have hqs : q ∈ (changesParsedRows t).insertionSort (fun a b => tsLe a.1 b.1 = true) :=
      (List.mem_insertionSort _).mpr hq
    have hqfil : q ∈ ((changesParsedRows t).insertionSort
        (fun a b => tsLe a.1 b.1 = true)).filter (fun x => decide (x.2.1 = d)) :=
      List.mem_filter.mpr ⟨hqs, by simp [hqd]⟩
    exact getLast_maximal (fun a => tsLe_refl a.1) (hsorted.filter _) hqfil hplast

/-- Witness for C3 at a concrete change-set file with a duplicated date. -/
theorem loaders_keep_one_per_date_witness :
    (∀ out, read_base_df ⟨true, true,
        [(some "2025-06-01", some "a"), (some "2025-06-01", some "b")]⟩ = .ok out →
      (out.map Prod.fst).Nodup ∧
      out.filter (fun r => decide (r.1 = "2025-06-01")) =
        ((baseParsedRows ⟨true, true,
            [(some "2025-06-01", some "a"), (some "2025-06-01", some "b")]⟩).filter
          (fun r => decide (r.1 = "2025-06-01"))).getLast?.toList) ∧
    ((read_changes_df ⟨true, true,
        [(some "2025-06-01", some "a"), (some "2025-06-01", some "b")]⟩).map
      Prod.fst).Nodup ∧
    (∀ e ∈ read_changes_df ⟨true, true,
        [(some "2025-06-01", some "a"), (some "2025-06-01", some "b")]⟩,
      e.1 = "2025-06-01" →
      ∃ p ∈ changesParsedRows ⟨true, true,
          [(some "2025-06-01", some "a"), (some "2025-06-01", some "b")]⟩,
        (p.2.1, p.2.2) = e ∧
        ∀ q ∈ changesParsedRows ⟨true, true,
            [(some "2025-06-01", some "a"), (some "2025-06-01", some "b")]⟩,
          q.2.1 = "2025-06-01" → tsLe q.1 p.1 = true) :=
  loaders_keep_one_per_date
    ⟨true, true, [(some "2025-06-01", some "a"), (some "2025-06-01", some "b")]⟩
    (by decide) "2025-06-01"

/-! ## Claim C5 -/

theorem dropDupLast_eq_self {α β : Type} [DecidableEq β] (key : α → β) (l : List α)
    (h : (l.map key).Nodup) : dropDupLast key l = l := by
  induction l with
  | nil => rfl
  | cons x xs ih =>
    simp only [List.map_cons, List.nodup_cons] at h
    rw [dropDupLast, if_neg, ih h.2]
    intro hany
    obtain ⟨y, hy, hky⟩ := List.any_eq_true.mp hany
    simp only [decide_eq_true_eq] at hky
    exact h.1 (hky ▸ List.mem_map_of_mem key hy)

/-- Writing a change set as CSV cells and re-parsing leaves each row intact:
the parsed rows project back to the original `(date, new_menu)` pairs. -/
theorem changesParsed_persist_roundtrip (l : List (String × String))
    (hl : ∀ e ∈ l, (∃ y m d, y ≤ 9999 ∧ 1 ≤ m ∧ m ≤ 12 ∧ 1 ≤ d ∧ d ≤ daysInMonth y m ∧
      e.1 = dateStrOf y m d) ∧ e.2 ∉ PANDAS_NA_VALUES) :
    (changesParsedRows ⟨true, true, l.map fun r => (some r.1, csvCell r.2)⟩).map
      (fun x => (x.2.1, x.2.2)) = l := by
  induction l with
  | nil => rfl
  | cons e l' ih =>
    obtain ⟨⟨y, m, d, hy, hm1, hm2, hd1, hd2, hdate⟩, hmenu⟩ := hl e (List.mem_cons_self e l')
    have hparse : parseTimestamp e.1 = some ⟨y, m, d, 0⟩ := by
      rw [hdate]; exact parseTimestamp_dateStrOf hy hm1 hm2 hd1 hd2
    have hcell : csvCell e.2 = some e.2 := by rw [csvCell, if_neg hmenu]
    have hfmt : fmtDate ⟨y, m, d, 0⟩ = e.1 := by rw [fmtDate_mk, hdate]
    simp only [changesParsedRows, List.map_cons, List.filterMap_cons] at ih ⊢
    simp only [hcell, hparse, hfmt, Option.getD_some, if_true]
    rw [List.map_cons]
    refine congrArg₂ _ rfl ?_
    exact ih fun e' he' => hl e' (List.mem_cons_of_mem _ he')

/-- **C5** counterexample: the menu text `NaN` is non-empty, but `pd.read_csv`
reads it back as a NA marker, which `fillna("")` turns into the empty string —
the persisted-and-reloaded change set is not the same set of
`(date, new_menu)` pairs. -/
theorem persist_roundtrip_na_cex :
    read_changes_df ⟨true, true, (persistChanges [("2025-06-01", "NaN")]).map
        fun r => (some r.1, csvCell r.2)⟩ = [("2025-06-01", "")] ∧
    ¬(read_changes_df ⟨true, true, (persistChanges [("2025-06-01", "NaN")]).map
        fun r => (some r.1, csvCell r.2)⟩).Perm [("2025-06-01", "NaN")] := by
  decide

/-- **C5** (amended): persisting a change set (the `do_save` projection,
sorted by date) and loading it back through `read_changes_df` yields the same
set of `(date, new_menu)` pairs, for any collection with valid in-range dates,
at most one row per date, and menu texts that `pd.read_csv` reloads verbatim —
non-empty, not one of pandas' default NA markers (`NaN`, `NA`, `null`, …,
which reload as `""`), and not numeric- or boolean-looking (which column type
inference could rewrite, e.g. `01` → `1`). -/
theorem persist_roundtrip (df : List (String × String))
    (hdates : ∀ e ∈ df, ∃ y m d, y ≤ 9999 ∧ 1 ≤ m ∧ m ≤ 12 ∧ 1 ≤ d ∧
      d ≤ daysInMonth y m ∧ e.1 = dateStrOf y m d)
    (hmenus : ∀ e ∈ df, e.2 ∉ PANDAS_NA_VALUES ∧ couldCoerce e.2 = false)
    (hnodup : (df.map Prod.fst).Nodup) :
    (read_changes_df ⟨true, true,
        (persistChanges df).map fun r => (some r.1, csvCell r.2)⟩).Perm df := by
  have hperm : (persistChanges df).Perm df := List.perm_insertionSort _ df
  have hproj := changesParsed_persist_roundtrip (persistChanges df) fun e he =>
    ⟨hdates e (hperm.subset he), (hmenus e (hperm.subset he)).1⟩
  have hsortperm : ((changesParsedRows ⟨true, true,
        (persistChanges df).map fun r => (some r.1, csvCell r.2)⟩).insertionSort
          (fun a b => tsLe a.1 b.1 = true)).Perm
      (changesParsedRows ⟨true, true,
        (persistChanges df).map fun r => (some r.1, csvCell r.2)⟩) :=
    List.perm_insertionSort _ _
  have h1 : ((changesParsedRows ⟨true, true,
      (persistChanges df).map fun r => (some r.1, csvCell r.2)⟩).map fun x => x.2.1) =
      (persistChanges df).map Prod.fst := by
    have h := congrArg (List.map Prod.fst) hproj
    rw [List.map_map] at h
    exact h
  have h2 : ((persistChanges df).map Prod.fst).Nodup :=
    ((hperm.map Prod.fst).nodup_iff).mpr hnodup
  have hkeys : (((changesParsedRows ⟨true, true,
      (persistChanges df).map fun r => (some r.1, csvCell r.2)⟩).insertionSort
        (fun a b => tsLe a.1 b.1 = true)).map fun x => x.2.1).Nodup :=
    ((hsortperm.map fun x => x.2.1).nodup_iff).mpr (h1 ▸ h2)
  rw [read_changes_df, dropDupLast_eq_self _ _ hkeys]
  refine (hsortperm.map fun x => (x.2.1, x.2.2)).trans ?_
  rw [hproj]
  exact hperm

/-- Witness for C5 at a concrete two-row change set. -/
theorem persist_roundtrip_witness :
    (read_changes_df ⟨true, true,
        (persistChanges [("2025-06-02", "x"), ("2025-06-01", "제육볶음")]).map
          fun r => (some r.1, csvCell r.2)⟩).Perm
      [("2025-06-02", "x"), ("2025-06-01", "제육볶음")] :=
  persist_roundtrip [("2025-06-02", "x"), ("2025-06-01", "제육볶음")]
    (by
      intro e he
      rcases List.mem_cons.mp he with rfl | he'
      · exact ⟨2025, 6, 2, by omega, by omega, by omega, by omega, by decide, by decide⟩
      rcases List.mem_cons.mp he' with rfl | h0
      · exact ⟨2025, 6, 1, by omega, by omega, by omega, by omega, by decide, by decide⟩
      cases h0)
    (by
      intro e he
      rcases List.mem_cons.mp he with rfl | he'
      · decide
      rcases List.mem_cons.mp he' with rfl | h0
      · decide
      cases h0)
    (by decide)

/-! ## Claim C6 -/

/-- **C6** counterexample: a change-set table whose `date` column is entirely
absent from the schema does not make the loader fail with a schema error —
`read_changes_df` fills the column with empty strings and returns normally
(here, with every row dropped as unparsable). -/
theorem read_changes_df_no_schema_error_cex :
    read_changes_df ⟨false, true, [(some "2025-01-01", some "밥")]⟩ = [] := by decide

theorem changesParsedRows_no_date (hm : Bool) (rows : List (Option String × Option String)) :
    changesParsedRows ⟨false, hm, rows⟩ = [] := by
  rw [changesParsedRows]
  exact List.filterMap_eq_nil_iff.mpr fun r hr => rfl

/-- **C6** (amended): missing cell values are treated as empty strings and do
not cause errors.  The base-menu loader fails — always with the fixed message
naming the required `date, base_menu` columns — exactly when the `date` or the
`base_menu` column is absent from the schema.  The change-set loader never
fails: an absent `date` column yields an empty result (every row's date is the
empty string, which does not parse), and an absent `new_menu` column behaves
exactly like a column of empty strings. -/
theorem loader_schema_errors (t : RawTable) (hm : Bool)
    (rows : List (Option String × Option String)) :
    ((∃ out, read_base_df t = .ok out) ↔ (t.hasDate ∧ t.hasMenu)) ∧
    (read_base_df t = .error baseSchemaErrMsg ↔ ¬(t.hasDate ∧ t.hasMenu)) ∧
    read_changes_df ⟨false, hm, rows⟩ = [] ∧
    read_changes_df ⟨true, false, rows⟩ =
      read_changes_df ⟨true, true, rows.map fun r => (r.1, some "")⟩ := by
  refine ⟨⟨?_, ?_⟩, ⟨?_, ?_⟩, ?_, ?_⟩
  · rintro ⟨out, hout⟩
    rw [read_base_df] at hout
    split at hout
    · rename_i hcond
      simp only [Bool.and_eq_true] at hcond
      exact ⟨hcond.1, hcond.2⟩
    · cases hout
  · intro h
    rw [read_base_df, if_pos (by simp [h.1, h.2])]
    exact ⟨_, rfl⟩
  · intro herr
    rw [read_base_df] at herr
    split at herr
    · cases herr
    · rename_i hcond
      simp only [Bool.and_eq_true] at hcond
      exact fun h => hcond ⟨h.1, h.2⟩
  · intro h
    rw [read_base_df, if_neg]
    simp only [Bool.and_eq_true]
    exact fun hc => h ⟨hc.1, hc.2⟩
  · rw [read_changes_df, changesParsedRows_no_date]
    rfl
  · rw [read_changes_df, read_changes_df]
    have heq : changesParsedRows ⟨true, false, rows⟩ =
        changesParsedRows ⟨true, true, rows.map fun r => (r.1, some "")⟩ := by
      rw [changesParsedRows, changesParsedRows, List.filterMap_map]
      rfl
    rw [heq]

/-! ## Claim C7 -/

/-- **C7** counterexample: `load_changes` in the single-file variant performs
no date parsing at all — a row whose non-blank date is unparsable as a date is
kept, not dropped. -/
theorem load_changes_unparsable_kept_cex :
    load_changes [(some "garbage", some "x")] = [("garbage", "x")] := by decide

theorem filterMap_filter_isSome {α β : Type} (f : α → Option β) (p : α → Bool)
    (l : List α) (hp : ∀ a, p a = false → f a = none) :
    (l.filter p).filterMap f = l.filterMap f := by
  induction l with
  | nil => rfl
  | cons a as ih =>
    rw [List.filter_cons]
    by_cases hpa : p a = true
    · rw [if_pos hpa, List.filterMap_cons, List.filterMap_cons, ih]
    · rw [if_neg hpa, List.filterMap_cons, hp a (by simpa using hpa), ih]

/-- **C7** (amended): in the per-month variant's two readers each row whose
date value fails to parse is silently dropped — removing those rows first
changes nothing, the load still succeeds, and no error is reported.  The
single-file variant's `load_changes` never parses dates: it only drops rows
whose stripped date or stripped override text is blank, and keeps every row
with a non-blank (even unparsable) date and non-blank text. -/
theorem parse_skip_rows (hm : Bool) (rows : List (Option String × Option String)) :
    read_base_df ⟨true, hm, rows.filter fun r => (parseTimestamp (r.1.getD "")).isSome⟩ =
      read_base_df ⟨true, hm, rows⟩ ∧
    read_changes_df ⟨true, hm, rows.filter fun r => (parseTimestamp (r.1.getD "")).isSome⟩ =
      read_changes_df ⟨true, hm, rows⟩ ∧
    (∀ r ∈ rows, strip (r.1.getD "") ≠ "" → strip (r.2.getD "") ≠ "" →
      (strip (r.1.getD ""), strip (r.2.getD "")) ∈ load_changes rows) := by
  refine ⟨?_, ?_, ?_⟩
  · rw [read_base_df, read_base_df]
    have hbase : baseParsedRows ⟨true, hm, rows.filter fun r =>
        (parseTimestamp (r.1.getD "")).isSome⟩ = baseParsedRows ⟨true, hm, rows⟩ := by
      rw [baseParsedRows, baseParsedRows]
      refine filterMap_filter_isSome _ _ rows fun r hr => ?_
      have : parseTimestamp (r.1.getD "") = none := by
        rcases hpt : parseTimestamp (r.1.getD "") with - | ts
        · rfl
        · rw [hpt] at hr
          cases hr
      rw [this]
    rw [hbase]
  · rw [read_changes_df, read_changes_df]
    have hch : changesParsedRows ⟨true, hm, rows.filter fun r =>
        (parseTimestamp (r.1.getD "")).isSome⟩ = changesParsedRows ⟨true, hm, rows⟩ := by
      rw [changesParsedRows, changesParsedRows]
      refine filterMap_filter_isSome _ _ rows fun r hr => ?_
      have hnone : parseTimestamp (r.1.getD "") = none := by
        rcases hpt : parseTimestamp (r.1.getD "") with - | ts
        · rfl
        · rw [hpt] at hr
          cases hr
      simp only [if_true, hnone]
    rw [hch]
  · intro r hr h1 h2
    rw [load_changes, List.mem_insertionSort]
    refine List.mem_filterMap.mpr ⟨r, hr, ?_⟩
    rw [if_pos ⟨h1, h2⟩]

/-! ## Claim C8 -/

/-- **C8** counterexample: when every candidate decode fails — as for the raw
byte 0x80, which is invalid in utf-8, utf-8-sig and cp949 alike —
`safe_read_csv`'s final fallback is a plain `pd.read_csv(path)` with the
default utf-8 encoding, whose failure is not caught: the reader aborts with no
table instead of falling back to a permissive decode. -/
theorem safe_read_csv_abort_cex :
    safe_read_csv (fun _ _ => none) [128] = none := rfl

/-- **C8** (amended): both readers attempt the candidate encodings in a fixed
order (per-month `safe_read_csv`: utf-8, utf-8-sig, cp949; single-file
`read_text_csv`: utf-8-sig, utf-8, cp949) and return the first successful
decode.  If every candidate fails, `read_text_csv` falls back to the lossy
`cp949, errors="replace"` decode and still returns a table, but
`safe_read_csv` retries the default decode (utf-8, already failed) and the
error propagates: it returns no table. -/
theorem encoding_fallbacks (decode : Enc → List Nat → Option String)
    (rep : List Nat → String) (raw : List Nat) :
    (∀ s, decode .utf8 raw = some s → safe_read_csv decode raw = some s) ∧
    (decode .utf8 raw = none → ∀ s, decode .utf8sig raw = some s →
      safe_read_csv decode raw = some s) ∧
    (decode .utf8 raw = none → decode .utf8sig raw = none → ∀ s,
      decode .cp949 raw = some s → safe_read_csv decode raw = some s) ∧
    ((∀ e, decode e raw = none) → safe_read_csv decode raw = none) ∧
    (∀ s, decode .utf8sig raw = some s → read_text_csv decode rep raw = s) ∧
    (decode .utf8sig raw = none → ∀ s, decode .utf8 raw = some s →
      read_text_csv decode rep raw = s) ∧
    (decode .utf8sig raw = none → decode .utf8 raw = none → ∀ s,
      decode .cp949 raw = some s → read_text_csv decode rep raw = s) ∧
    ((∀ e, decode e raw = none) → read_text_csv decode rep raw = rep raw) := by
  refine ⟨?_, ?_, ?_, ?_, ?_, ?_, ?_, ?_⟩
  · intro s h
    rw [safe_read_csv, h]
  · intro h0 s h
    rw [safe_read_csv, h0, h]
  · intro h0 h1 s h
    rw [safe_read_csv, h0, h1, h]
  · intro h
    rw [safe_read_csv, h .utf8, h .utf8sig, h .cp949]
  · intro s h
    rw [read_text_csv, h]
  · intro h0 s h
    rw [read_text_csv, h0, h]
  · intro h0 h1 s h
    rw [read_text_csv, h0, h1, h]
  · intro h
    rw [read_text_csv, h .utf8sig, h .utf8, h .cp949]

/-! ## Claim C10 -/

theorem charsLe_trans (l1 : List Char) : ∀ l2 l3, charsLe l1 l2 = true →
    charsLe l2 l3 = true → charsLe l1 l3 = true := by
  induction l1 with
  | nil => intro l2 l3 _ _; rfl
  | cons a as ih =>
    intro l2 l3 hab hbc
    cases l2 with
    | nil => simp [charsLe] at hab
    | cons b bs =>
      cases l3 with
      | nil => simp [charsLe] at hbc
      | cons c cs =>
        simp only [charsLe] at hab hbc ⊢
        by_cases h1 : a.toNat < b.toNat
        · by_cases h2 : b.toNat < c.toNat
          · rw [if_pos (by omega)]
          · rw [if_neg h2] at hbc
            by_cases h3 : c.toNat < b.toNat
            · rw [if_pos h3] at hbc
              cases hbc
            · rw [if_pos (by omega)]
        · rw [if_neg h1] at hab
          by_cases h4 : b.toNat < a.toNat
          · rw [if_pos h4] at hab
            cases hab
          · rw [if_neg h4] at hab
            by_cases h2 : b.toNat < c.toNat
            · rw [if_pos (by omega)]
            · rw [if_neg h2] at hbc
              by_cases h3 : c.toNat < b.toNat
              · rw [if_pos h3] at hbc
                cases hbc
              · rw [if_neg h3] at hbc
                rw [if_neg (by omega), if_neg (by omega)]
                exact ih bs cs hab hbc

theorem charsLe_total (l1 : List Char) : ∀ l2, charsLe l1 l2 = true ∨ charsLe l2 l1 = true := by
  induction l1 with
  | nil => intro l2; left; rfl
  | cons a as ih =>
    intro l2
    cases l2 with
    | nil => right; rfl
    | cons b bs =>
      simp only [charsLe]
      rcases Nat.lt_trichotomy a.toNat b.toNat with h | h | h
      · left; rw [if_pos h]
      · rcases ih bs with hl | hr
        · left
          rw [if_neg (by omega), if_neg (by omega)]
          exact hl
        · right
          rw [if_neg (by omega), if_neg (by omega)]
          exact hr
      · right; rw [if_pos h]

theorem strLe_trans (a b c : String) (hab : strLe a b = true) (hbc : strLe b c = true) :
    strLe a c = true :=
  charsLe_trans a.data b.data c.data hab hbc

theorem strLe_total (a b : String) : strLe a b = true ∨ strLe b a = true :=
  charsLe_total a.data b.data

/-- **C10**: every element of `load_changes` carries a non-empty stripped date
and a non-empty stripped override text (each element is exactly the stripped
pair of some input row whose date and override were non-blank), and the
returned list is sorted ascending by the date string; in particular an
override cleared to empty text never appears. -/
theorem load_changes_invariants (rows : List (Option String × Option String)) :
    (∀ e ∈ load_changes rows,
      (∃ r ∈ rows, e = (strip (r.1.getD ""), strip (r.2.getD ""))) ∧
      e.1 ≠ "" ∧ e.2 ≠ "") ∧
    (load_changes rows).Pairwise (fun a b => strLe a.1 b.1 = true) := by
  constructor
  · intro e he
    rw [load_changes, List.mem_insertionSort] at he
    obtain ⟨r, hr, hsome⟩ := List.mem_filterMap.mp he
    by_cases hc : strip (r.1.getD "") ≠ "" ∧ strip (r.2.getD "") ≠ ""
    · rw [if_pos hc] at hsome
      obtain rfl := Option.some.inj hsome
      exact ⟨⟨r, hr, rfl⟩, hc.1, hc.2⟩
    · rw [if_neg hc] at hsome
      cases hsome
  · rw [load_changes]
    haveI : IsTrans (String × String) (fun a b => strLe a.1 b.1 = true) :=
      ⟨fun a b c => strLe_trans a.1 b.1 c.1⟩
    haveI : IsTotal (String × String) (fun a b => strLe a.1 b.1 = true) :=
      ⟨fun a b => strLe_total a.1 b.1⟩
    exact List.sorted_insertionSort _ _

/-! ## Claim C9 -/

theorem prefix_of_append_eq_append_cons {c : Char} :
    ∀ {p u : List Char} {t v : List Char}, p ++ t = u ++ c :: v → c ∉ p →
      List.IsPrefix p u := by
  intro p
  induction p with
  | nil => intro u t v _ _; exact List.nil_prefix
  | cons a p' ih =>
    intro u t v h hc
    cases u with
    | nil =>
      simp only [List.cons_append, List.nil_append, List.cons.injEq] at h
      exact absurd (h.1 ▸ List.mem_cons_self a p') hc
    | cons b u' =>
      simp only [List.cons_append, List.cons.injEq] at h
      obtain ⟨rfl, h2⟩ := h
      obtain ⟨r, hr⟩ := ih h2 fun hcp => hc (List.mem_cons_of_mem _ hcp)
      exact ⟨r, by rw [List.cons_append, hr]⟩

theorem infix_append_cons_split {p : List Char} {c : Char} (hc : c ∉ p) :
    ∀ {s t xs ys : List Char}, s ++ p ++ t = xs ++ c :: ys →
      p <:+: xs ∨ p <:+: ys := by
  intro s
  induction s with
  | nil =>
    intro t xs ys hst
    simp only [List.nil_append] at hst
    exact Or.inl (prefix_of_append_eq_append_cons hst hc).isInfix
  | cons a s' ih =>
    intro t xs ys hst
    cases xs with
    | nil =>
      simp only [List.cons_append, List.nil_append, List.cons.injEq] at hst
      exact Or.inr ⟨s', t, hst.2⟩
    | cons b xs' =>
      simp only [List.cons_append, List.cons.injEq] at hst
      rcases ih (by simpa using hst.2) with h1 | h2
      · exact Or.inl (List.infix_cons h1)
      · exact Or.inr h2

/-- A newline-free, non-empty pattern occurring in a newline-joined text must
occur inside one of the lines. -/
theorem joinLines_infix {p : List Char} (hnl : '\n' ∉ p) (hne : p ≠ []) :
    ∀ {L : List String}, p <:+: (joinLines L).data → ∃ l ∈ L, p <:+: l.data := by
  intro L
  induction L with
  | nil =>
    intro h
    exact absurd (List.eq_nil_of_infix_nil h) hne
  | cons l ls ih =>
    intro h
    cases ls with
    | nil => exact ⟨l, List.mem_cons_self _ _, h⟩
    | cons l2 ls2 =>
      have hstep : joinLines (l :: l2 :: ls2) = l ++ "\n" ++ joinLines (l2 :: ls2) := rfl
      have hdata : (joinLines (l :: l2 :: ls2)).data =
          l.data ++ '\n' :: (joinLines (l2 :: ls2)).data := by
        rw [hstep]
        simp
      rw [hdata] at h
      obtain ⟨s, t, hst⟩ := h
      rcases infix_append_cons_split hnl hst with h1 | h2
      · exact ⟨l, List.mem_cons_self _ _, h1⟩
      · obtain ⟨l', hl', hinf⟩ := ih h2
        exact ⟨l', List.mem_cons_of_mem _ hl', hinf⟩

/-- **C9**: for every month (1–12) and sequence of changed rows,
`build_message` produces exactly the text block of the claim — title line,
blank line, one `MM/DD: (기본)… → (변경)…` line per changed row in input
(date) order with `(미기재)` substituted for blank texts, or the literal
`변경 없음` when there are none, then a blank line and the sender signature —
and the vendor phone number appears nowhere in the output as long as no
changed row's own texts render it into a change line. -/
theorem build_message_spec (month : Nat) (rows : List MergedRow)
    (hmonth : 1 ≤ month ∧ month ≤ 12)
    (hrows : ∀ r ∈ rows, ¬(VENDOR_TEL.data <:+: (changeLine r).data)) :
    build_message month rows =
      joinLines ([VENDOR_NAME ++ " ( " ++ toString month ++ " )월 변경 식단 입니다", ""] ++
        (if rows.isEmpty then ["변경 없음"] else rows.map changeLine) ++
        ["", SENDER_ORG ++ " / " ++ SENDER_NAME ++ " / " ++ SENDER_TEL]) ∧
    ¬(VENDOR_TEL.data <:+: (build_message month rows).data) := by
  have hstruct : build_message month rows =
      joinLines ([VENDOR_NAME ++ " ( " ++ toString month ++ " )월 변경 식단 입니다", ""] ++
        (if rows.isEmpty then ["변경 없음"] else rows.map changeLine) ++
        ["", SENDER_ORG ++ " / " ++ SENDER_NAME ++ " / " ++ SENDER_TEL]) := by
    rw [build_message]
    by_cases h : rows.isEmpty <;> simp [h, List.append_assoc]
  refine ⟨hstruct, ?_⟩
  rw [hstruct]
  intro hinf
  have hnl : '\n' ∉ VENDOR_TEL.data := by decide
  have hne : VENDOR_TEL.data ≠ [] := by decide
  obtain ⟨l, hl, hlinf⟩ := joinLines_infix hnl hne hinf
  obtain ⟨hm1, hm2⟩ := hmonth
  simp only [List.mem_append, List.mem_cons, List.not_mem_nil, or_false] at hl
  rcases hl with ((rfl | rfl) | hmid) | (rfl | rfl)
  · -- the title line
    revert hlinf
    interval_cases month <;> decide
  · exact absurd (List.eq_nil_of_infix_nil hlinf) hne
  · by_cases h : rows.isEmpty
    · rw [if_pos h] at hmid
      simp only [List.mem_singleton] at hmid
      rw [hmid] at hlinf
      exact absurd hlinf (by decide)
    · rw [if_neg h] at hmid
      obtain ⟨r, hr, rfl⟩ := List.mem_map.mp hmid
      exact hrows r hr hlinf
  · exact absurd (List.eq_nil_of_infix_nil hlinf) hne
  · exact absurd hlinf (by decide)

/-- Witness for C9 at month 6 with one concrete changed row. -/
theorem build_message_spec_witness :
    build_message 6 [MergedRow.mk "2025-06-01" "김치볶음밥" "제육볶음" "제육볶음" true "06/01"] =
      joinLines ([VENDOR_NAME ++ " ( " ++ toString 6 ++ " )월 변경 식단 입니다", ""] ++
        (if ([MergedRow.mk "2025-06-01" "김치볶음밥" "제육볶음" "제육볶음" true
            "06/01"]).isEmpty then ["변경 없음"]
          else ([MergedRow.mk "2025-06-01" "김치볶음밥" "제육볶음" "제육볶음" true
            "06/01"]).map changeLine) ++
        ["", SENDER_ORG ++ " / " ++ SENDER_NAME ++ " / " ++ SENDER_TEL]) ∧
    ¬(VENDOR_TEL.data <:+:
        (build_message 6
          [MergedRow.mk "2025-06-01" "김치볶음밥" "제육볶음" "제육볶음" true "06/01"]).data) :=
  build_message_spec 6
    [MergedRow.mk "2025-06-01" "김치볶음밥" "제육볶음" "제육볶음" true "06/01"]
    (by omega)
    (by
      intro r hr
      rcases List.mem_cons.mp hr with rfl | h0
      · decide
      cases h0)
